import Mathlib

/-! Verification of the cube-store drill-down state machine and of the SQL safety
gate of the data-platform-olap repository.  The drill-down definitions are a
shallow embedding of `src/frontend/src/store/cubeStore.js`; the older store
version (`src/unnamed/part_006`) is embedded for the refinement comparison; the
backend SQL validator is modelled from the specification, since only its callers
are in the sources. -/

namespace Olap

/-! ## Cube metadata (shape consumed by the store, from the backend metadata JSON) -/

/-- One hierarchy level of a dimension; the store only reads its `name`. -/
structure Level where
  name : String
deriving Repr, DecidableEq

/-- A dimension as read by the store: a name and an optional ordered level list
(`dim.levels` may be absent in the JS object, hence `Option`). -/
structure Dimension where
  name : String
  levels : Option (List Level)
deriving Repr, DecidableEq

/-- Cube metadata as held in `cubeMetadata.value`. -/
structure CubeMetadata where
  dimensions : List Dimension
deriving Repr, DecidableEq

/-- An axis entry of the pivot configuration: a (dimension, level) pair. -/
structure Field where
  dimension : String
  level : String
deriving Repr, DecidableEq

/-- A measure entry of the pivot configuration (`addMeasure` stores only the name). -/
structure Measure where
  name : String
deriving Repr, DecidableEq

/-- A filter clause of the pivot configuration. -/
structure Filter where
  dimension : String
  level : String
  operator : String
  values : List String
deriving Repr, DecidableEq

/-- The pivot configuration held in `pivotConfig.value`. -/
structure PivotConfig where
  rows : List Field
  columns : List Field
  measures : List Measure
  filters : List Filter
deriving Repr, DecidableEq

/-! ## Helper functions of the store -/

/-- Embeds `getNextLevel` of cubeStore.js: find the dimension by name, then the
current level's index, and return the following level.  The JS guard
`currentIndex >= dim.levels.length - 1` together with the found index being
below the length is exactly `levels[currentIndex + 1]?` being `none`. -/
def getNextLevel (meta : Option CubeMetadata) (dimensionName currentLevel : String) :
    Option Level :=
  match meta with
  | none => none
  | some m =>
    match m.dimensions.find? (fun d => d.name == dimensionName) with
    | none => none
    | some dim =>
      match dim.levels with
      | none => none
      | some levels =>
        match levels.findIdx? (fun l => l.name == currentLevel) with
        | none => none
        | some currentIndex => levels[currentIndex + 1]?

/-! ## Drill-down expansion keys -/

/-- The key built by `drillDownRow`: the template literal
`row:<dimension>:<level>:<value>`. -/
def rowKey (dimensionName currentLevel value : String) : String :=
  "row:" ++ dimensionName ++ ":" ++ currentLevel ++ ":" ++ value

/-- The key built by `drillDownColumn`: `col:<dimension>:<level>:<value>`. -/
def colKey (dimensionName currentLevel value : String) : String :=
  "col:" ++ dimensionName ++ ":" ++ currentLevel ++ ":" ++ value

/-- The toggle common to `drillDownRow` and `drillDownColumn`: if the key is a
property of `expandedItems.value` it is deleted, otherwise it is added (a new
string property of a JS object is appended in insertion order).  The object is
modelled by its key list in insertion order. -/
def toggleKey (expandedItems : List String) (key : String) : List String :=
  if key ∈ expandedItems then expandedItems.erase key
  else expandedItems ++ [key]

/-- State transition of `drillDownRow` on `expandedItems` (the subsequent query
re-execution does not change the drill state). -/
def drillDownRow (expandedItems : List String) (dimensionName currentLevel value : String) :
    List String :=
  toggleKey expandedItems (rowKey dimensionName currentLevel value)

/-- State transition of `drillDownColumn` on `expandedItems`. -/
def drillDownColumn (expandedItems : List String) (dimensionName currentLevel value : String) :
    List String :=
  toggleKey expandedItems (colKey dimensionName currentLevel value)

/-! ## JS array and string primitives used by buildDrillDownConfig -/

/-- JS `String.prototype.split` with a one-character separator, on character
lists: `"a:b".split(':') = ["a","b"]`, `"".split(':') = [""]`. -/
def splitChar (sep : Char) : List Char → List (List Char)
  | [] => [[]]
  | c :: cs =>
    match splitChar sep cs with
    | [] => [[c]]
    | w :: ws => if c = sep then [] :: w :: ws else (c :: w) :: ws

/-- `key.split(':')` as used in buildDrillDownConfig. -/
def jsSplitColon (s : String) : List String :=
  (splitChar ':' s.data).map fun cs => ⟨cs⟩

/-- JS `Array.prototype.findIndex`, with the not-found value -1 rendered as
`none`. -/
def findIndex? (p : α → Bool) : List α → Option Nat
  | [] => none
  | a :: l => if p a then some 0 else (findIndex? p l).map (· + 1)

/-- JS `arr.splice(i, 0, x)`: insert `x` at position `i` (appends when `i` is
at or beyond the length, as splice does). -/
def spliceInsert (l : List α) (i : Nat) (x : α) : List α :=
  l.take i ++ x :: l.drop i

/-! ## buildDrillDownConfig -/

/-- The axis part of one `buildDrillDownConfig` loop iteration: on the axis
named by `ty`, insert the next level right after the current one, unless the
next level is already on that axis or the current level is absent from it. -/
def insertExpandedLevel (config : PivotConfig) (ty dimName level : String)
    (nextLevel : Level) : PivotConfig :=
  if ty == "col" then
    if (config.columns.find? fun c =>
        c.dimension == dimName && c.level == nextLevel.name).isSome then
      config
    else
      match findIndex? (fun c => c.dimension == dimName && c.level == level)
          config.columns with
      | some currentIdx =>
        { config with
            columns :=
              spliceInsert config.columns (currentIdx + 1) ⟨dimName, nextLevel.name⟩ }
      | none => config
  else if ty == "row" then
    if (config.rows.find? fun r =>
        r.dimension == dimName && r.level == nextLevel.name).isSome then
      config
    else
      match findIndex? (fun r => r.dimension == dimName && r.level == level)
          config.rows with
      | some currentIdx =>
        { config with
            rows :=
              spliceInsert config.rows (currentIdx + 1) ⟨dimName, nextLevel.name⟩ }
      | none => config
  else config

/-- The body of the `for` loop of `buildDrillDownConfig`, after the
destructuring `[type, dimName, level, value] = key.split(':')`.  When the next
level exists it is inserted after the current one on the matching axis, and the
equality filter for the expanded value is pushed; otherwise the key is a no-op. -/
def applyExpansionDecoded (meta : Option CubeMetadata) (config : PivotConfig)
    (ty dimName level value : String) : PivotConfig :=
  match getNextLevel meta dimName level with
  | none => config
  | some nextLevel =>
    let config1 := insertExpandedLevel config ty dimName level nextLevel
    { config1 with
        filters :=
          config1.filters ++
            [{ dimension := dimName, level := level, operator := "=", values := [value] }] }

/-- One loop iteration of `buildDrillDownConfig` for one key of
`expandedItems`: destructure the key on `:` (missing components of a short key
are rendered as ""), then apply the expansion. -/
def applyExpansion (meta : Option CubeMetadata) (config : PivotConfig) (key : String) :
    PivotConfig :=
  applyExpansionDecoded meta config
    ((jsSplitColon key).getD 0 "") ((jsSplitColon key).getD 1 "")
    ((jsSplitColon key).getD 2 "") ((jsSplitColon key).getD 3 "")

/-- Embeds `buildDrillDownConfig`: start from a fresh copy of the four
configuration arrays, then fold the expansion over the keys of
`expandedItems.value` in insertion order. -/
def buildDrillDownConfig (meta : Option CubeMetadata) (pivotConfig : PivotConfig)
    (expandedItems : List String) : PivotConfig :=
  expandedItems.foldl (applyExpansion meta)
    { rows := pivotConfig.rows, columns := pivotConfig.columns,
      measures := pivotConfig.measures, filters := pivotConfig.filters }

/-- The (dimension, level, value) triple a key decodes to in
`buildDrillDownConfig` (components 1, 2, 3 of the split). -/
def decodeTriple (key : String) : String × String × String :=
  ((jsSplitColon key).getD 1 "", (jsSplitColon key).getD 2 "", (jsSplitColon key).getD 3 "")

/-- The filter clause built for one decoded triple. -/
def clauseOf (t : String × String × String) : Filter :=
  { dimension := t.1, level := t.2.1, operator := "=", values := [t.2.2] }

/-- The filter contributed by one expansion key, if any: present exactly when
the decoded (dimension, level) has a next level in the metadata. -/
def drillFilter (meta : Option CubeMetadata) (key : String) : Option Filter :=
  (getNextLevel meta ((jsSplitColon key).getD 1 "") ((jsSplitColon key).getD 2 "")).map
    fun _ =>
      { dimension := (jsSplitColon key).getD 1 "", level := (jsSplitColon key).getD 2 "",
        operator := "=", values := [(jsSplitColon key).getD 3 ""] }

/-- All filters contributed by the drill state, in key order. -/
def drillFilters (meta : Option CubeMetadata) (keys : List String) : List Filter :=
  keys.filterMap (drillFilter meta)

/-! ## Configuration mutation actions of the store -/

/-- The configuration produced by `resetPivotConfig` (also the initial state). -/
def emptyPivotConfig : PivotConfig :=
  { rows := [], columns := [], measures := [], filters := [] }

/-- Embeds `addToRows`: push a copy of the field unless an entry with the same
(dimension, level) is already on the rows axis. -/
def addToRows (config : PivotConfig) (field : Field) : PivotConfig :=
  if (config.rows.find? fun f =>
      f.dimension == field.dimension && f.level == field.level).isSome then
    config
  else { config with rows := config.rows ++ [field] }

/-- Embeds `addToColumns`. -/
def addToColumns (config : PivotConfig) (field : Field) : PivotConfig :=
  if (config.columns.find? fun f =>
      f.dimension == field.dimension && f.level == field.level).isSome then
    config
  else { config with columns := config.columns ++ [field] }

/-- Embeds `addMeasure`: push `{ name: measure.name }` unless a measure with
that name is already present. -/
def addMeasure (config : PivotConfig) (measure : Measure) : PivotConfig :=
  if (config.measures.find? fun m => m.name == measure.name).isSome then
    config
  else { config with measures := config.measures ++ [{ name := measure.name }] }

/-- One `add` action on the configuration. -/
inductive AddOp where
  | row (f : Field)
  | col (f : Field)
  | meas (m : Measure)
deriving Repr, DecidableEq

/-- Apply one add action. -/
def applyAddOp (config : PivotConfig) : AddOp → PivotConfig
  | .row f => addToRows config f
  | .col f => addToColumns config f
  | .meas m => addMeasure config m

/-- Apply a sequence of add actions in order. -/
def applyAddOps (config : PivotConfig) (ops : List AddOp) : PivotConfig :=
  ops.foldl applyAddOp config

/-- No two entries of an axis list share their (dimension, level) pair. -/
def axisNoDup (l : List Field) : Prop :=
  l.Pairwise fun a b => ¬(a.dimension = b.dimension ∧ a.level = b.level)

/-- No two measure entries share a name. -/
def measuresNoDup (l : List Measure) : Prop :=
  l.Pairwise fun a b => a.name ≠ b.name

/-- The duplicate-freeness invariant of the configuration. -/
def configNoDup (c : PivotConfig) : Prop :=
  axisNoDup c.rows ∧ axisNoDup c.columns ∧ measuresNoDup c.measures

/-! ## The store state and the query submission of both store versions -/

/-- The store fields involved in query building (current cube, metadata, pivot
configuration, drill state).  UI-only fields (loading, error, results) are
omitted. -/
structure StoreState where
  currentCube : Option String
  cubeMetadata : Option CubeMetadata
  pivotConfig : PivotConfig
  expandedItems : List String
deriving Repr, DecidableEq

/-- The store-level action of `buildDrillDownConfig`: the JS body only reads
`cubeMetadata.value`, `pivotConfig.value` and `expandedItems.value`, and every
array mutation (splice/push) targets the local `config` built from copies
(`[...xs]`) of the configuration arrays, so the store state comes back
unchanged next to the derived configuration. -/
def storeBuildDrillDownConfig (s : StoreState) : StoreState × PivotConfig :=
  (s, buildDrillDownConfig s.cubeMetadata s.pivotConfig s.expandedItems)

/-- The query payload posted to the backend (`{ cube_name, ...config }`). -/
structure QueryPayload where
  cube_name : String
  rows : List Field
  columns : List Field
  measures : List Measure
  filters : List Filter
deriving Repr, DecidableEq

/-- Embeds the drill-aware `executePivotQuery`: reset `expandedItems` to the
empty set, then (in `executePivotQueryWithDrillDown`) bail out when no cube is
selected, else build the drill config and submit it with the cube name.
Returns the post-state and the submitted payload, `none` when nothing is
submitted. -/
def executePivotQueryPayload (s : StoreState) : StoreState × Option QueryPayload :=
  let s1 : StoreState := { s with expandedItems := [] }
  match s1.currentCube with
  | none => (s1, none)
  | some cube =>
    let config := buildDrillDownConfig s1.cubeMetadata s1.pivotConfig s1.expandedItems
    (s1, some { cube_name := cube, rows := config.rows, columns := config.columns,
                measures := config.measures, filters := config.filters })

/-- The store fields of the older store version (src/unnamed/part_006), which
has no drill state. -/
structure StoreStateV0 where
  currentCube : Option String
  pivotConfig : PivotConfig
deriving Repr, DecidableEq

/-- Embeds `executePivotQuery` of the older store: submit
`{ cube_name, ...pivotConfig }` directly, or nothing when no cube is selected. -/
def executePivotQueryPayloadV0 (s : StoreStateV0) : Option QueryPayload :=
  match s.currentCube with
  | none => none
  | some cube =>
    some { cube_name := cube, rows := s.pivotConfig.rows, columns := s.pivotConfig.columns,
           measures := s.pivotConfig.measures, filters := s.pivotConfig.filters }

/-! ## The SQL safety gate (spec-modelled) -/

/-- A word character of a SQL identifier/keyword token. -/
def isWordChar (c : Char) : Bool :=
  c.isAlphanum || c == '_'

/-- Tokenizer accumulator: cut the character stream into maximal word-character
runs; every non-word character (whitespace, punctuation, parentheses) is a
separator. -/
def tokenizeAux : List Char → List Char → List (List Char)
  | [], acc => if acc.isEmpty then [] else [acc.reverse]
  | c :: cs, acc =>
    if isWordChar c then tokenizeAux cs (c :: acc)
    else if acc.isEmpty then tokenizeAux cs []
    else acc.reverse :: tokenizeAux cs []

/-- The word tokens of a SQL text, in order. -/
def sqlTokens (s : String) : List String :=
  (tokenizeAux s.data []).map fun cs => ⟨cs⟩

/-- Modelled from the spec: the closed mutating-keyword blocklist of the
validation/sanitization gate (spec section 4.4.5, PRD node SQLValidator); the
Python backend implementing the gate is not under src, only its description and
its frontend callers are. -/
def mutatingKeywords : List String :=
  ["UPDATE", "DELETE", "ALTER", "DROP", "INSERT", "TRUNCATE", "GRANT"]

/-- Character-wise uppercasing of a token (the behaviour of a case-insensitive
comparison against the upper-case blocklist). -/
def upperString (s : String) : String :=
  ⟨s.data.map Char.toUpper⟩

/-- Modelled from the spec: a statement contains a mutating keyword when some
word token of it, uppercased, is on the blocklist — case-insensitive keyword
match on token boundaries, not substring match inside identifiers. -/
def hasMutatingKeyword (sql : String) : Bool :=
  (sqlTokens sql).any fun t => mutatingKeywords.contains (upperString t)

/-- Modelled from the spec: the mandatory validation gate rejects any statement
containing a mutating keyword with an UnsafeQueryError naming the rule, and
passes the statement through otherwise.  (The whitelist and LIMIT rules of the
gate only reject or cap further statements; they are not needed for the
blocklist claim and are not modelled.) -/
def validateSQL (sql : String) : Except String String :=
  if hasMutatingKeyword sql then .error "UnsafeQueryError: mutating keyword" else .ok sql

/-- Modelled from the spec: the single shared gate in front of the warehouse
executor; `some` is the statement that reaches the warehouse. -/
def warehouseGate (sql : String) : Option String :=
  (validateSQL sql).toOption

/-- Modelled from the spec: the SQL reaching the warehouse on the NL2SQL path —
the extracted statement must pass the validation stage before bounded
execution. -/
def warehouseSQLOfNL2SQL (extractedSQL : String) : Option String :=
  warehouseGate extractedSQL

/-- Modelled from the spec: the SQL reaching the warehouse on the pivot path —
the compiled statement passes through the same shared validator. -/
def warehouseSQLOfPivot (compiledSQL : String) : Option String :=
  warehouseGate compiledSQL

/-! ## Concrete instances used by witnesses and scenarios -/

/-- The scenario cube metadata: dimension Date with levels Year, Quarter, Month. -/
def dateMeta : Option CubeMetadata :=
  some { dimensions := [{ name := "Date",
                          levels := some [{ name := "Year" }, { name := "Quarter" },
                                          { name := "Month" }] }] }

/-- The scenario base configuration: rows = [Date/Year], measures = [SalesAmount]. -/
def salesBase : PivotConfig :=
  { rows := [{ dimension := "Date", level := "Year" }], columns := [],
    measures := [{ name := "SalesAmount" }], filters := [] }

/-- Metadata with one dimension d of levels a, b, for the duplicate-filter
counterexample. -/
def metaDL : Option CubeMetadata :=
  some { dimensions := [{ name := "d", levels := some [{ name := "a" }, { name := "b" }] }] }

/-! ## Lemmas about the split of expansion keys -/

lemma splitChar_ne_nil (sep : Char) : ∀ l : List Char, splitChar sep l ≠ []
  | [] => by simp [splitChar]
  | c :: cs => by
    simp only [splitChar]
    cases h : splitChar sep cs with
    | nil => simp
    | cons w ws => by_cases hc : c = sep <;> simp [hc]

lemma splitChar_not_mem (sep : Char) : ∀ l : List Char, sep ∉ l → splitChar sep l = [l]
  | [], _ => rfl
  | c :: cs, h => by
    have hc : ¬(c = sep) := fun e => h (e ▸ List.mem_cons_self c cs)
    have ih := splitChar_not_mem sep cs (fun hm => h (List.mem_cons_of_mem _ hm))
    simp only [splitChar, ih]
    simp [hc]

lemma splitChar_append (sep : Char) : ∀ (a b : List Char), sep ∉ a →
    splitChar sep (a ++ sep :: b) = a :: splitChar sep b
  | [], b, _ => by
    simp only [List.nil_append, splitChar]
    cases h : splitChar sep b with
    | nil => exact absurd h (splitChar_ne_nil sep b)
    | cons w ws => simp [h]
  | c :: a', b, h => by
    have hc : ¬(c = sep) := fun e => h (e ▸ List.mem_cons_self c a')
    have ih := splitChar_append sep a' b (fun hm => h (List.mem_cons_of_mem _ hm))
    simp only [List.cons_append, splitChar, List.append_eq]
    rw [ih]
    simp [hc]

lemma rowKey_data (d l v : String) :
    (rowKey d l v).data
      = 'r' :: 'o' :: 'w' :: ':' :: (d.data ++ ':' :: (l.data ++ ':' :: v.data)) := by
  show (((("row:".data ++ d.data) ++ ":".data) ++ l.data) ++ ":".data) ++ v.data = _
  simp [List.append_assoc]

lemma colKey_data (d l v : String) :
    (colKey d l v).data
      = 'c' :: 'o' :: 'l' :: ':' :: (d.data ++ ':' :: (l.data ++ ':' :: v.data)) := by
  show (((("col:".data ++ d.data) ++ ":".data) ++ l.data) ++ ":".data) ++ v.data = _
  simp [List.append_assoc]

lemma jsSplitColon_rowKey (d l v : String) (hd : ':' ∉ d.data) (hl : ':' ∉ l.data) :
    jsSplitColon (rowKey d l v) = "row" :: d :: l :: jsSplitColon v := by
  unfold jsSplitColon
  rw [rowKey_data]
  have hshape : 'r' :: 'o' :: 'w' :: ':' :: (d.data ++ ':' :: (l.data ++ ':' :: v.data))
      = ['r', 'o', 'w'] ++ ':' :: (d.data ++ ':' :: (l.data ++ ':' :: v.data)) := rfl
  rw [hshape, splitChar_append _ _ _ (by decide), splitChar_append _ _ _ hd,
    splitChar_append _ _ _ hl]
  rfl

lemma jsSplitColon_colKey (d l v : String) (hd : ':' ∉ d.data) (hl : ':' ∉ l.data) :
    jsSplitColon (colKey d l v) = "col" :: d :: l :: jsSplitColon v := by
  unfold jsSplitColon
  rw [colKey_data]
  have hshape : 'c' :: 'o' :: 'l' :: ':' :: (d.data ++ ':' :: (l.data ++ ':' :: v.data))
      = ['c', 'o', 'l'] ++ ':' :: (d.data ++ ':' :: (l.data ++ ':' :: v.data)) := rfl
  rw [hshape, splitChar_append _ _ _ (by decide), splitChar_append _ _ _ hd,
    splitChar_append _ _ _ hl]
  rfl

lemma jsSplitColon_noColon (s : String) (h : ':' ∉ s.data) : jsSplitColon s = [s] := by
  unfold jsSplitColon
  rw [splitChar_not_mem _ _ h]
  rfl

lemma decodeTriple_rowKey (d l v : String) (hd : ':' ∉ d.data) (hl : ':' ∉ l.data)
    (hv : ':' ∉ v.data) : decodeTriple (rowKey d l v) = (d, l, v) := by
  unfold decodeTriple
  rw [jsSplitColon_rowKey d l v hd hl, jsSplitColon_noColon v hv]
  rfl

lemma decodeTriple_colKey (d l v : String) (hd : ':' ∉ d.data) (hl : ':' ∉ l.data)
    (hv : ':' ∉ v.data) : decodeTriple (colKey d l v) = (d, l, v) := by
  unfold decodeTriple
  rw [jsSplitColon_colKey d l v hd hl, jsSplitColon_noColon v hv]
  rfl

/-! ## Lemmas about one loop iteration of buildDrillDownConfig -/

lemma applyExpansion_rowKey (meta : Option CubeMetadata) (config : PivotConfig)
    (d l v : String) (hd : ':' ∉ d.data) (hl : ':' ∉ l.data) :
    applyExpansion meta config (rowKey d l v)
      = applyExpansionDecoded meta config "row" d l ((jsSplitColon v).getD 0 "") := by
  unfold applyExpansion
  rw [jsSplitColon_rowKey d l v hd hl]
  rfl

lemma applyExpansion_colKey (meta : Option CubeMetadata) (config : PivotConfig)
    (d l v : String) (hd : ':' ∉ d.data) (hl : ':' ∉ l.data) :
    applyExpansion meta config (colKey d l v)
      = applyExpansionDecoded meta config "col" d l ((jsSplitColon v).getD 0 "") := by
  unfold applyExpansion
  rw [jsSplitColon_colKey d l v hd hl]
  rfl

lemma applyExpansionDecoded_none (meta : Option CubeMetadata) (config : PivotConfig)
    (ty d l v : String) (h : getNextLevel meta d l = none) :
    applyExpansionDecoded meta config ty d l v = config := by
  unfold applyExpansionDecoded
  rw [h]

lemma applyExpansionDecoded_some (meta : Option CubeMetadata) (config : PivotConfig)
    (ty d l v : String) (nl : Level) (h : getNextLevel meta d l = some nl) :
    applyExpansionDecoded meta config ty d l v
      = { insertExpandedLevel config ty d l nl with
          filters := (insertExpandedLevel config ty d l nl).filters ++
            [{ dimension := d, level := l, operator := "=", values := [v] }] } := by
  unfold applyExpansionDecoded
  rw [h]

lemma insertExpandedLevel_filters (config : PivotConfig) (ty d l : String) (nl : Level) :
    (insertExpandedLevel config ty d l nl).filters = config.filters := by
  unfold insertExpandedLevel
  split
  · split
    · rfl
    · split <;> rfl
  · split
    · split
      · rfl
      · split <;> rfl
    · rfl

lemma insertExpandedLevel_measures (config : PivotConfig) (ty d l : String) (nl : Level) :
    (insertExpandedLevel config ty d l nl).measures = config.measures := by
  unfold insertExpandedLevel
  split
  · split
    · rfl
    · split <;> rfl
  · split
    · split
      · rfl
      · split <;> rfl
    · rfl

lemma insertExpandedLevel_row (config : PivotConfig) (d l : String) (nl : Level) :
    insertExpandedLevel config "row" d l nl
      = (if (config.rows.find? fun r =>
            r.dimension == d && r.level == nl.name).isSome then config
         else
           match findIndex? (fun r => r.dimension == d && r.level == l) config.rows with
           | some currentIdx =>
             { config with
                 rows := spliceInsert config.rows (currentIdx + 1) ⟨d, nl.name⟩ }
           | none => config) := by
  unfold insertExpandedLevel
  rfl

lemma insertExpandedLevel_col (config : PivotConfig) (d l : String) (nl : Level) :
    insertExpandedLevel config "col" d l nl
      = (if (config.columns.find? fun c =>
            c.dimension == d && c.level == nl.name).isSome then config
         else
           match findIndex? (fun c => c.dimension == d && c.level == l) config.columns with
           | some currentIdx =>
             { config with
                 columns := spliceInsert config.columns (currentIdx + 1) ⟨d, nl.name⟩ }
           | none => config) := by
  unfold insertExpandedLevel
  rfl

/-! ## Lemmas about the drill toggle -/

lemma toggleKey_nodup (items : List String) (key : String) (h : items.Nodup) :
    (toggleKey items key).Nodup := by
  by_cases hk : key ∈ items
  · simpa [toggleKey, hk] using h.erase key
  · unfold toggleKey
    rw [if_neg hk, List.nodup_append]
    refine ⟨h, List.nodup_singleton key, fun a ha hb => hk ?_⟩
    have : a = key := by simpa using hb
    exact this ▸ ha

lemma mem_toggleKey_self (items : List String) (key : String) (h : items.Nodup) :
    key ∈ toggleKey items key ↔ key ∉ items := by
  by_cases hk : key ∈ items
  · simp [toggleKey, hk, List.Nodup.mem_erase_iff h]
  · simp [toggleKey, hk]

lemma mem_toggleKey_ne (items : List String) (key k : String) (hne : k ≠ key) :
    k ∈ toggleKey items key ↔ k ∈ items := by
  by_cases hk : key ∈ items
  · simp [toggleKey, hk, List.mem_erase_of_ne hne]
  · simp [toggleKey, hk, hne]

lemma mem_toggleKey_toggleKey (items : List String) (key : String) (h : items.Nodup)
    (k : String) : k ∈ toggleKey (toggleKey items key) key ↔ k ∈ items := by
  by_cases hk : k = key
  · subst hk
    rw [mem_toggleKey_self _ _ (toggleKey_nodup items k h), mem_toggleKey_self _ _ h]
    exact not_not
  · rw [mem_toggleKey_ne _ _ _ hk, mem_toggleKey_ne _ _ _ hk]

/-! ## Lemmas about findIndex? and spliceInsert -/

lemma findIndex?_some_spec {α : Type} (p : α → Bool) :
    ∀ (l : List α) (i : Nat), findIndex? p l = some i →
      i < l.length ∧ ∃ a, l[i]? = some a ∧ p a = true
  | [], i, h => by simp [findIndex?] at h
  | a :: l, i, h => by
    by_cases hp : p a
    · simp only [findIndex?, hp, if_pos] at h
      cases h
      exact ⟨Nat.succ_pos _, a, by simp, hp⟩
    · simp only [findIndex?, hp, if_neg] at h
      cases hfi : findIndex? p l with
      | none => rw [hfi] at h; simp at h
      | some j =>
        rw [hfi] at h
        simp only [Option.map_some'] at h
        cases h
        obtain ⟨hlen, b, hb, hpb⟩ := findIndex?_some_spec p l j hfi
        exact ⟨Nat.succ_lt_succ hlen, b, by simpa using hb, hpb⟩

lemma spliceInsert_getElem? {α : Type} :
    ∀ (l : List α) (i : Nat) (x : α), i < l.length →
      (spliceInsert l (i + 1) x)[i]? = l[i]? ∧ (spliceInsert l (i + 1) x)[i + 1]? = some x
  | [], i, x, h => by simp at h
  | a :: l, 0, x, _ => by simp [spliceInsert]
  | a :: l, i + 1, x, h => by
    have ih := spliceInsert_getElem? l i x (by simpa using h)
    simpa [spliceInsert] using ih

/-! ## The filter component of buildDrillDownConfig -/

lemma applyExpansionDecoded_filters (meta : Option CubeMetadata) (config : PivotConfig)
    (ty d l v : String) :
    (applyExpansionDecoded meta config ty d l v).filters
      = config.filters ++
          (match getNextLevel meta d l with
           | none => []
           | some _ => [{ dimension := d, level := l, operator := "=", values := [v] }]) := by
  cases h : getNextLevel meta d l with
  | none => rw [applyExpansionDecoded_none _ _ _ _ _ _ h]; simp
  | some nl => rw [applyExpansionDecoded_some _ _ _ _ _ _ _ h]; simp [insertExpandedLevel_filters]

lemma applyExpansion_filters (meta : Option CubeMetadata) (config : PivotConfig)
    (key : String) :
    (applyExpansion meta config key).filters
      = config.filters ++ (drillFilter meta key).toList := by
  unfold applyExpansion
  rw [applyExpansionDecoded_filters]
  congr 1
  unfold drillFilter
  cases h : getNextLevel meta ((jsSplitColon key).getD 1 "") ((jsSplitColon key).getD 2 "") with
  | none => simp [h]
  | some nl => simp [h]

lemma buildDrillDownConfig_eq_foldl (meta : Option CubeMetadata) (base : PivotConfig)
    (keys : List String) :
    buildDrillDownConfig meta base keys = keys.foldl (applyExpansion meta) base := rfl

lemma buildDrillDownConfig_filters (meta : Option CubeMetadata) :
    ∀ (keys : List String) (base : PivotConfig),
      (buildDrillDownConfig meta base keys).filters
        = base.filters ++ drillFilters meta keys
  | [], base => by simp [buildDrillDownConfig_eq_foldl, drillFilters]
  | key :: keys, base => by
    rw [buildDrillDownConfig_eq_foldl] at *
    have ih := buildDrillDownConfig_filters meta keys (applyExpansion meta base key)
    rw [buildDrillDownConfig_eq_foldl] at ih
    simp only [List.foldl_cons]
    rw [ih, applyExpansion_filters]
    cases h : drillFilter meta key with
    | none => simp [drillFilters, List.filterMap_cons, h]
    | some c => simp [drillFilters, List.filterMap_cons, h]

lemma drillFilter_eq_some (meta : Option CubeMetadata) (key : String) (c : Filter)
    (h : drillFilter meta key = some c) : c = clauseOf (decodeTriple key) := by
  unfold drillFilter at h
  cases hn : getNextLevel meta ((jsSplitColon key).getD 1 "") ((jsSplitColon key).getD 2 "") with
  | none => rw [hn] at h; simp at h
  | some nl =>
    rw [hn] at h
    simp only [Option.map_some', Option.some_inj] at h
    exact h.symm

lemma clauseOf_injective (t1 t2 : String × String × String) (h : clauseOf t1 = clauseOf t2) :
    t1 = t2 := by
  obtain ⟨a1, b1, c1⟩ := t1
  obtain ⟨a2, b2, c2⟩ := t2
  simp [clauseOf] at h
  obtain ⟨h1, h2, h3⟩ := h
  simp [h1, h2, h3]

lemma drillFilters_nodup (meta : Option CubeMetadata) :
    ∀ keys : List String,
      (keys.Pairwise fun k1 k2 => decodeTriple k1 ≠ decodeTriple k2) →
      (drillFilters meta keys).Nodup
  | [], _ => by simp [drillFilters]
  | key :: keys, h => by
    rw [List.pairwise_cons] at h
    obtain ⟨hhead, htail⟩ := h
    have ih := drillFilters_nodup meta keys htail
    cases hf : drillFilter meta key with
    | none => simpa [drillFilters, List.filterMap_cons, hf] using ih
    | some c =>
      simp only [drillFilters, List.filterMap_cons, hf, List.nodup_cons]
      refine ⟨fun hmem => ?_, ih⟩
      obtain ⟨k', hk', hfk'⟩ := List.mem_filterMap.mp hmem
      have h1 := drillFilter_eq_some meta key c hf
      have h2 := drillFilter_eq_some meta k' c hfk'
      exact hhead k' hk' (clauseOf_injective _ _ (h1 ▸ h2 ▸ rfl))

lemma mem_drillFilters (meta : Option CubeMetadata) (keys : List String) (key : String)
    (c : Filter) (hk : key ∈ keys) (hf : drillFilter meta key = some c) :
    c ∈ drillFilters meta keys :=
  List.mem_filterMap.mpr ⟨key, hk, hf⟩

/-! ## A find? helper for the axis existence check -/

lemma axis_find?_none (l : List Field) (d nm : String) (h : Field.mk d nm ∉ l) :
    (l.find? fun f => f.dimension == d && f.level == nm) = none := by
  rw [List.find?_eq_none]
  intro f hf hp
  simp only [Bool.and_eq_true, beq_iff_eq] at hp
  obtain ⟨h1, h2⟩ := hp
  apply h
  have : f = Field.mk d nm := by cases f; simp_all
  exact this ▸ hf

lemma drillFilter_rowKey (meta : Option CubeMetadata) (d l v : String) (nl : Level)
    (hd : ':' ∉ d.data) (hl : ':' ∉ l.data) (hv : ':' ∉ v.data)
    (hnext : getNextLevel meta d l = some nl) :
    drillFilter meta (rowKey d l v)
      = some { dimension := d, level := l, operator := "=", values := [v] } := by
  unfold drillFilter
  rw [jsSplitColon_rowKey d l v hd hl, jsSplitColon_noColon v hv]
  simp [hnext, List.getD]

lemma drillFilter_colKey (meta : Option CubeMetadata) (d l v : String) (nl : Level)
    (hd : ':' ∉ d.data) (hl : ':' ∉ l.data) (hv : ':' ∉ v.data)
    (hnext : getNextLevel meta d l = some nl) :
    drillFilter meta (colKey d l v)
      = some { dimension := d, level := l, operator := "=", values := [v] } := by
  unfold drillFilter
  rw [jsSplitColon_colKey d l v hd hl, jsSplitColon_noColon v hv]
  simp [hnext, List.getD]

/-! ## Lemmas about the add actions (duplicate-freeness) -/

lemma addToRows_of_found (config : PivotConfig) (field : Field)
    (h : ∃ g ∈ config.rows, g.dimension = field.dimension ∧ g.level = field.level) :
    addToRows config field = config := by
  obtain ⟨g, hg, h1, h2⟩ := h
  unfold addToRows
  rw [if_pos]
  rw [List.find?_isSome]
  exact ⟨g, hg, by simp [h1, h2]⟩

lemma addToColumns_of_found (config : PivotConfig) (field : Field)
    (h : ∃ g ∈ config.columns, g.dimension = field.dimension ∧ g.level = field.level) :
    addToColumns config field = config := by
  obtain ⟨g, hg, h1, h2⟩ := h
  unfold addToColumns
  rw [if_pos]
  rw [List.find?_isSome]
  exact ⟨g, hg, by simp [h1, h2]⟩

lemma addMeasure_of_found (config : PivotConfig) (measure : Measure)
    (h : ∃ g ∈ config.measures, g.name = measure.name) :
    addMeasure config measure = config := by
  obtain ⟨g, hg, h1⟩ := h
  unfold addMeasure
  rw [if_pos]
  rw [List.find?_isSome]
  exact ⟨g, hg, by simp [h1]⟩

lemma axisNoDup_push (l : List Field) (f : Field) (h : axisNoDup l)
    (hnone : (l.find? fun g => g.dimension == f.dimension && g.level == f.level) = none) :
    axisNoDup (l ++ [f]) := by
  rw [axisNoDup, List.pairwise_append]
  refine ⟨h, List.pairwise_singleton _ _, fun a ha b hb => ?_⟩
  have hb' : b = f := by simpa using hb
  subst hb'
  have := List.find?_eq_none.mp hnone a ha
  simpa using this

lemma measuresNoDup_push (l : List Measure) (m : Measure) (h : measuresNoDup l)
    (hnone : (l.find? fun g => g.name == m.name) = none) :
    measuresNoDup (l ++ [{ name := m.name }]) := by
  rw [measuresNoDup, List.pairwise_append]
  refine ⟨h, List.pairwise_singleton _ _, fun a ha b hb => ?_⟩
  have hb' : b = { name := m.name } := by simpa using hb
  subst hb'
  have := List.find?_eq_none.mp hnone a ha
  simpa using this

lemma applyAddOp_noDup (c : PivotConfig) (op : AddOp) (h : configNoDup c) :
    configNoDup (applyAddOp c op) := by
  obtain ⟨hr, hc, hm⟩ := h
  cases op with
  | row f =>
    show configNoDup (addToRows c f)
    unfold addToRows
    by_cases hf : (c.rows.find? fun g =>
        g.dimension == f.dimension && g.level == f.level).isSome
    · rw [if_pos hf]; exact ⟨hr, hc, hm⟩
    · rw [if_neg hf]
      exact ⟨axisNoDup_push c.rows f hr (Option.not_isSome_iff_eq_none.mp hf), hc, hm⟩
  | col f =>
    show configNoDup (addToColumns c f)
    unfold addToColumns
    by_cases hf : (c.columns.find? fun g =>
        g.dimension == f.dimension && g.level == f.level).isSome
    · rw [if_pos hf]; exact ⟨hr, hc, hm⟩
    · rw [if_neg hf]
      exact ⟨hr, axisNoDup_push c.columns f hc (Option.not_isSome_iff_eq_none.mp hf), hm⟩
  | meas m =>
    show configNoDup (addMeasure c m)
    unfold addMeasure
    by_cases hf : (c.measures.find? fun g => g.name == m.name).isSome
    · rw [if_pos hf]; exact ⟨hr, hc, hm⟩
    · rw [if_neg hf]
      exact ⟨hr, hc, measuresNoDup_push c.measures m hm (Option.not_isSome_iff_eq_none.mp hf)⟩

lemma applyAddOps_noDup (ops : List AddOp) :
    ∀ c : PivotConfig, configNoDup c → configNoDup (applyAddOps c ops) := by
  induction ops with
  | nil => exact fun c h => h
  | cons op ops ih =>
    intro c h
    exact ih (applyAddOp c op) (applyAddOp_noDup c op h)

/-! ## Lemmas about the SQL tokenizer (whitespace padding) -/

lemma whitespace_not_word (c : Char) (h : c.isWhitespace = true) : isWordChar c = false := by
  have h' : ((c = ' ' ∨ c = '\t') ∨ c = '\x0d') ∨ c = '\n' := by
    simpa [Char.isWhitespace] using h
  rcases h' with ((h' | h') | h') | h' <;> subst h' <;> decide

lemma tokenizeAux_ws_prefix (ws : List Char) (hws : ∀ c ∈ ws, c.isWhitespace = true) :
    ∀ l : List Char, tokenizeAux (ws ++ l) [] = tokenizeAux l [] := by
  induction ws with
  | nil => intro l; rfl
  | cons c ws ih =>
    intro l
    have hc : isWordChar c = false :=
      whitespace_not_word c (hws c (List.mem_cons_self c ws))
    have hws' : ∀ c ∈ ws, c.isWhitespace = true :=
      fun x hx => hws x (List.mem_cons_of_mem _ hx)
    simp only [List.cons_append, tokenizeAux, hc]
    simpa using ih hws' l

lemma tokenizeAux_ws_suffix (ws : List Char) (hws : ∀ c ∈ ws, c.isWhitespace = true) :
    ∀ (l acc : List Char), tokenizeAux (l ++ ws) acc = tokenizeAux l acc := by
  induction ws with
  | nil => intro l acc; simp
  | cons c ws ih =>
    intro l acc
    induction l generalizing acc with
    | nil =>
      have hc : isWordChar c = false :=
        whitespace_not_word c (hws c (List.mem_cons_self c ws))
      have hws' : ∀ x ∈ ws, x.isWhitespace = true :=
        fun x hx => hws x (List.mem_cons_of_mem _ hx)
      simp only [List.nil_append, tokenizeAux, hc]
      by_cases hacc : acc = []
      · subst hacc
        simpa using ih hws' [] []
      · have h1 : acc.isEmpty = false := by simpa [List.isEmpty_iff] using hacc
        simp only [h1]
        have := ih hws' [] []
        simp only [List.nil_append] at this
        simp [this, tokenizeAux, h1]
    | cons a l ihl =>
      simp only [List.cons_append, tokenizeAux]
      by_cases ha : isWordChar a
      · simp only [ha, if_pos]
        exact ihl (a :: acc)
      · simp only [ha, Bool.false_eq_true, if_neg, if_false]
        by_cases hacc : acc.isEmpty
        · simp only [hacc, if_true]
          exact ihl []
        · simp only [hacc, if_false, List.append_eq]
          rw [ihl []]

lemma sqlTokens_pad (ws1 ws2 stmt : String)
    (h1 : ∀ c ∈ ws1.data, c.isWhitespace = true) (h2 : ∀ c ∈ ws2.data, c.isWhitespace = true) :
    sqlTokens (ws1 ++ stmt ++ ws2) = sqlTokens stmt := by
  unfold sqlTokens
  have hd : (ws1 ++ stmt ++ ws2).data = ws1.data ++ ((stmt.data ++ ws2.data)) := by
    show (ws1.data ++ stmt.data) ++ ws2.data = _
    rw [List.append_assoc]
  rw [hd, tokenizeAux_ws_prefix ws1.data h1, tokenizeAux_ws_suffix ws2.data h2]

/-! ## Claim theorems -/

/-- C2: for every duplicate-free drill state and every key (axis, dimension,
level, value), toggling twice (drillDownRow or drillDownColumn called twice
with the same arguments) returns the expandedItems set to exactly its original
set of keys; a single toggle flips membership of that key, changes the
membership of no other key, and keeps the state duplicate-free. -/
theorem drill_toggle_involution (items : List String) (h : items.Nodup)
    (d l v : String) :
    (∀ k, k ∈ drillDownRow (drillDownRow items d l v) d l v ↔ k ∈ items)
  ∧ (∀ k, k ∈ drillDownColumn (drillDownColumn items d l v) d l v ↔ k ∈ items)
  ∧ (rowKey d l v ∈ drillDownRow items d l v ↔ rowKey d l v ∉ items)
  ∧ (∀ k, k ≠ rowKey d l v → (k ∈ drillDownRow items d l v ↔ k ∈ items))
  ∧ (colKey d l v ∈ drillDownColumn items d l v ↔ colKey d l v ∉ items)
  ∧ (∀ k, k ≠ colKey d l v → (k ∈ drillDownColumn items d l v ↔ k ∈ items))
  ∧ (drillDownRow items d l v).Nodup ∧ (drillDownColumn items d l v).Nodup := by
  refine ⟨fun k => ?_, fun k => ?_, ?_, fun k hk => ?_, ?_, fun k hk => ?_, ?_, ?_⟩
  · exact mem_toggleKey_toggleKey items (rowKey d l v) h k
  · exact mem_toggleKey_toggleKey items (colKey d l v) h k
  · exact mem_toggleKey_self items (rowKey d l v) h
  · exact mem_toggleKey_ne items (rowKey d l v) k hk
  · exact mem_toggleKey_self items (colKey d l v) h
  · exact mem_toggleKey_ne items (colKey d l v) k hk
  · exact toggleKey_nodup items (rowKey d l v) h
  · exact toggleKey_nodup items (colKey d l v) h

/-- C2 witness: toggling the same row key twice on a concrete one-element
state leaves the membership of the resident key unchanged. -/
theorem drill_toggle_involution_witness :
    "row:Region:Country:USA" ∈
        drillDownRow (drillDownRow ["row:Region:Country:USA"] "Date" "Year" "2024")
          "Date" "Year" "2024"
      ↔ "row:Region:Country:USA" ∈ ["row:Region:Country:USA"] :=
  (drill_toggle_involution ["row:Region:Country:USA"] (by decide) "Date" "Year" "2024").1
    "row:Region:Country:USA"

/-- C3: with a single expansion key (axis, D, L, V) in the drill state, where
the metadata places level L' immediately after L on dimension D, where D/L is
on the matching axis of the base configuration at first index i, and where D/L'
is not already on that axis, the derived configuration's axis list is the base
list with D/L' inserted immediately after D/L (the other entries keep their
positions, hence their relative order), and the other axis is unchanged;
symmetrically for both axes. -/
theorem drill_insertion_adjacency
    (meta : Option CubeMetadata) (base : PivotConfig) (d l v : String) (L' : Level)
    (hd : ':' ∉ d.data) (hl : ':' ∉ l.data)
    (hnext : getNextLevel meta d l = some L') :
    (∀ i, findIndex? (fun r => r.dimension == d && r.level == l) base.rows = some i →
        Field.mk d L'.name ∉ base.rows →
          (buildDrillDownConfig meta base [rowKey d l v]).rows
              = spliceInsert base.rows (i + 1) ⟨d, L'.name⟩
        ∧ (buildDrillDownConfig meta base [rowKey d l v]).rows[i]? = some ⟨d, l⟩
        ∧ (buildDrillDownConfig meta base [rowKey d l v]).rows[i + 1]? = some ⟨d, L'.name⟩
        ∧ (buildDrillDownConfig meta base [rowKey d l v]).columns = base.columns)
  ∧ (∀ i, findIndex? (fun c => c.dimension == d && c.level == l) base.columns = some i →
        Field.mk d L'.name ∉ base.columns →
          (buildDrillDownConfig meta base [colKey d l v]).columns
              = spliceInsert base.columns (i + 1) ⟨d, L'.name⟩
        ∧ (buildDrillDownConfig meta base [colKey d l v]).columns[i]? = some ⟨d, l⟩
        ∧ (buildDrillDownConfig meta base [colKey d l v]).columns[i + 1]?
            = some ⟨d, L'.name⟩
        ∧ (buildDrillDownConfig meta base [colKey d l v]).rows = base.rows) := by
  constructor
  · intro i hidx hnot
    have hfind := axis_find?_none base.rows d L'.name hnot
    have hins : insertExpandedLevel base "row" d l L'
        = { base with rows := spliceInsert base.rows (i + 1) ⟨d, L'.name⟩ } := by
      rw [insertExpandedLevel_row, hfind]
      simp only [Option.isSome_none, Bool.false_eq_true, if_false]
      rw [hidx]
    have step : buildDrillDownConfig meta base [rowKey d l v]
        = { insertExpandedLevel base "row" d l L' with
            filters := (insertExpandedLevel base "row" d l L').filters ++
              [{ dimension := d, level := l, operator := "=",
                 values := [(jsSplitColon v).getD 0 ""] }] } := by
      show applyExpansion meta base (rowKey d l v) = _
      rw [applyExpansion_rowKey meta base d l v hd hl,
          applyExpansionDecoded_some meta base "row" d l _ L' hnext]
    rw [step, hins]
    obtain ⟨hlen, a, ha, hpa⟩ := findIndex?_some_spec _ base.rows i hidx
    have haf : a = Field.mk d l := by
      obtain ⟨ad, al⟩ := a
      simp only [Bool.and_eq_true, beq_iff_eq] at hpa
      simp [hpa.1, hpa.2]
    obtain ⟨hg1, hg2⟩ := spliceInsert_getElem? base.rows i ⟨d, L'.name⟩ hlen
    refine ⟨rfl, ?_, ?_, rfl⟩
    · show (spliceInsert base.rows (i + 1) ⟨d, L'.name⟩)[i]? = some ⟨d, l⟩
      rw [hg1, ha, haf]
    · exact hg2
  · intro i hidx hnot
    have hfind := axis_find?_none base.columns d L'.name hnot
    have hins : insertExpandedLevel base "col" d l L'
        = { base with columns := spliceInsert base.columns (i + 1) ⟨d, L'.name⟩ } := by
      rw [insertExpandedLevel_col, hfind]
      simp only [Option.isSome_none, Bool.false_eq_true, if_false]
      rw [hidx]
    have step : buildDrillDownConfig meta base [colKey d l v]
        = { insertExpandedLevel base "col" d l L' with
            filters := (insertExpandedLevel base "col" d l L').filters ++
              [{ dimension := d, level := l, operator := "=",
                 values := [(jsSplitColon v).getD 0 ""] }] } := by
      show applyExpansion meta base (colKey d l v) = _
      rw [applyExpansion_colKey meta base d l v hd hl,
          applyExpansionDecoded_some meta base "col" d l _ L' hnext]
    rw [step, hins]
    obtain ⟨hlen, a, ha, hpa⟩ := findIndex?_some_spec _ base.columns i hidx
    have haf : a = Field.mk d l := by
      obtain ⟨ad, al⟩ := a
      simp only [Bool.and_eq_true, beq_iff_eq] at hpa
      simp [hpa.1, hpa.2]
    obtain ⟨hg1, hg2⟩ := spliceInsert_getElem? base.columns i ⟨d, L'.name⟩ hlen
    refine ⟨rfl, ?_, ?_, rfl⟩
    · show (spliceInsert base.columns (i + 1) ⟨d, L'.name⟩)[i]? = some ⟨d, l⟩
      rw [hg1, ha, haf]
    · exact hg2

/-- C3 witness: expanding (row, Date, Year, 2024) on the sample cube makes
Date/Year at index 0 be immediately followed by Date/Quarter at index 1. -/
theorem drill_insertion_adjacency_witness :
    (buildDrillDownConfig dateMeta salesBase [rowKey "Date" "Year" "2024"]).rows[0]?
        = some ⟨"Date", "Year"⟩
  ∧ (buildDrillDownConfig dateMeta salesBase [rowKey "Date" "Year" "2024"]).rows[1]?
        = some ⟨"Date", "Quarter"⟩ := by
  have h := (drill_insertion_adjacency dateMeta salesBase "Date" "Year" "2024"
    { name := "Quarter" } (by decide) (by decide) (by decide)).1 0 (by decide) (by decide)
  exact ⟨h.2.1, h.2.2.1⟩

/-- C6: an expansion key whose decoded (dimension, level) has no next level in
the current metadata (finest level, or a stale dimension/level) is ignored
entirely by buildDrillDownConfig: dropping it from the drill state yields the
identical effective configuration, on either axis. -/
theorem stale_key_ignored
    (meta : Option CubeMetadata) (base : PivotConfig) (pre post : List String)
    (d l v : String) (hd : ':' ∉ d.data) (hl : ':' ∉ l.data)
    (hnone : getNextLevel meta d l = none) :
    buildDrillDownConfig meta base (pre ++ rowKey d l v :: post)
        = buildDrillDownConfig meta base (pre ++ post)
  ∧ buildDrillDownConfig meta base (pre ++ colKey d l v :: post)
        = buildDrillDownConfig meta base (pre ++ post) := by
  have hrow : ∀ c, applyExpansion meta c (rowKey d l v) = c := fun c => by
    rw [applyExpansion_rowKey meta c d l v hd hl,
        applyExpansionDecoded_none meta c "row" d l _ hnone]
  have hcol : ∀ c, applyExpansion meta c (colKey d l v) = c := fun c => by
    rw [applyExpansion_colKey meta c d l v hd hl,
        applyExpansionDecoded_none meta c "col" d l _ hnone]
  constructor
  · rw [buildDrillDownConfig_eq_foldl, buildDrillDownConfig_eq_foldl,
        List.foldl_append, List.foldl_append, List.foldl_cons, hrow]
  · rw [buildDrillDownConfig_eq_foldl, buildDrillDownConfig_eq_foldl,
        List.foldl_append, List.foldl_append, List.foldl_cons, hcol]

/-- C6 witness: expanding the finest level (row, Date, Month, Jan) of the
sample cube changes nothing in the effective configuration. -/
theorem stale_key_ignored_witness :
    buildDrillDownConfig dateMeta salesBase ([] ++ rowKey "Date" "Month" "Jan" :: [])
      = buildDrillDownConfig dateMeta salesBase ([] ++ []) :=
  (stale_key_ignored dateMeta salesBase [] [] "Date" "Month" "Jan"
    (by decide) (by decide) (by decide)).1

/-- C7: the store-level buildDrillDownConfig action is a pure derivation: it
returns the store state unchanged (component-wise on the pivot configuration
and on expandedItems), and a second call on the returned state yields an equal
configuration. -/
theorem effective_config_pure :
    ∀ s : StoreState,
      (storeBuildDrillDownConfig s).1 = s
    ∧ (storeBuildDrillDownConfig s).1.pivotConfig.rows = s.pivotConfig.rows
    ∧ (storeBuildDrillDownConfig s).1.pivotConfig.columns = s.pivotConfig.columns
    ∧ (storeBuildDrillDownConfig s).1.pivotConfig.measures = s.pivotConfig.measures
    ∧ (storeBuildDrillDownConfig s).1.pivotConfig.filters = s.pivotConfig.filters
    ∧ (storeBuildDrillDownConfig s).1.expandedItems = s.expandedItems
    ∧ (storeBuildDrillDownConfig (storeBuildDrillDownConfig s).1).2
        = (storeBuildDrillDownConfig s).2 :=
  fun _ => ⟨rfl, rfl, rfl, rfl, rfl, rfl, rfl⟩

/-- C8: with an empty drill state buildDrillDownConfig returns the base
configuration itself; consequently the drill-aware executePivotQuery, which
clears expandedItems before building, submits exactly the payload the older
store version (src/unnamed/part_006) submits from the same cube selection and
pivot configuration. -/
theorem empty_drill_refines_base :
    (∀ (meta : Option CubeMetadata) (base : PivotConfig),
        buildDrillDownConfig meta base [] = base)
  ∧ (∀ s : StoreState,
        (executePivotQueryPayload s).1.expandedItems = []
      ∧ (executePivotQueryPayload s).2
          = executePivotQueryPayloadV0
              { currentCube := s.currentCube, pivotConfig := s.pivotConfig }) := by
  refine ⟨fun meta base => rfl, fun s => ⟨?_, ?_⟩⟩
  · cases h : s.currentCube <;> simp [executePivotQueryPayload, h]
  · cases h : s.currentCube with
    | none => simp [executePivotQueryPayload, executePivotQueryPayloadV0, h]
    | some cube =>
      simp [executePivotQueryPayload, executePivotQueryPayloadV0, h]
      exact ⟨rfl, rfl, rfl, rfl⟩

/-- C4: an expansion key (axis, D, L, V) whose dimension has a next level makes
buildDrillDownConfig append the filter {D, L, '=', [V]} to the base filter
list (exactly, for a singleton drill state; as a member, for any drill state
containing the key); in particular expanding (row, Date, Year, 2024) on the
sample cube yields effective rows [Date/Year, Date/Quarter] plus exactly that
one extra filter. -/
theorem drill_filter_appended :
    (∀ (meta : Option CubeMetadata) (base : PivotConfig) (d l v : String) (L' : Level),
        ':' ∉ d.data → ':' ∉ l.data → ':' ∉ v.data →
        getNextLevel meta d l = some L' →
          (buildDrillDownConfig meta base [rowKey d l v]).filters
              = base.filters ++
                  [{ dimension := d, level := l, operator := "=", values := [v] }]
        ∧ (buildDrillDownConfig meta base [colKey d l v]).filters
              = base.filters ++
                  [{ dimension := d, level := l, operator := "=", values := [v] }])
  ∧ (∀ (meta : Option CubeMetadata) (base : PivotConfig) (keys : List String)
        (d l v : String) (L' : Level),
        rowKey d l v ∈ keys → ':' ∉ d.data → ':' ∉ l.data → ':' ∉ v.data →
        getNextLevel meta d l = some L' →
        ({ dimension := d, level := l, operator := "=", values := [v] } : Filter)
          ∈ (buildDrillDownConfig meta base keys).filters)
  ∧ buildDrillDownConfig dateMeta salesBase [rowKey "Date" "Year" "2024"]
      = { rows := [⟨"Date", "Year"⟩, ⟨"Date", "Quarter"⟩], columns := [],
          measures := [⟨"SalesAmount"⟩],
          filters := [{ dimension := "Date", level := "Year", operator := "=",
                        values := ["2024"] }] } := by
  refine ⟨?_, ?_, by decide⟩
  · intro meta base d l v L' hd hl hv hnext
    constructor
    · rw [buildDrillDownConfig_filters]
      have h := drillFilter_rowKey meta d l v L' hd hl hv hnext
      simp [drillFilters, h]
    · rw [buildDrillDownConfig_filters]
      have h := drillFilter_colKey meta d l v L' hd hl hv hnext
      simp [drillFilters, h]
  · intro meta base keys d l v L' hk hd hl hv hnext
    rw [buildDrillDownConfig_filters]
    exact List.mem_append_right _
      (mem_drillFilters meta keys _ _ hk (drillFilter_rowKey meta d l v L' hd hl hv hnext))

/-- C4 witness: the singleton expansion (row, Date, Year, 2024) appends exactly
the filter {Date, Year, '=', [2024]} to the sample base filter list. -/
theorem drill_filter_appended_witness :
    (buildDrillDownConfig dateMeta salesBase [rowKey "Date" "Year" "2024"]).filters
      = salesBase.filters ++
          [{ dimension := "Date", level := "Year", operator := "=", values := ["2024"] }] :=
  (drill_filter_appended.1 dateMeta salesBase "Date" "Year" "2024" { name := "Quarter" }
    (by decide) (by decide) (by decide) (by decide)).1

/-- C5 counterexample: the two keys row:d:a:x and col:d:a:x are distinct (the
drill state, a set of keys, keeps both), decode to the identical
(dimension, level, value) triple, and the effective filter list then contains
the identical clause {d, a, '=', [x]} twice — so expansion filters on the
identical triple are not deduplicated. -/
theorem drill_filter_dedup_counterexample :
    (["row:d:a:x", "col:d:a:x"] : List String).Nodup
  ∧ decodeTriple "row:d:a:x" = decodeTriple "col:d:a:x"
  ∧ ((buildDrillDownConfig metaDL emptyPivotConfig ["row:d:a:x", "col:d:a:x"]).filters).count
      { dimension := "d", level := "a", operator := "=", values := ["x"] } = 2 :=
  ⟨by decide, by decide, by decide⟩

/-- C5 (amended): the expansion filters appended after the base filters are in
one-to-one correspondence with the expansion keys that have a next level, and
deduplication is per full (axis, dimension, level, value) key: expansions whose
decoded (dimension, level, value) triples are pairwise distinct contribute
pairwise distinct filter clauses (so distinct values on the same
(dimension, level) each contribute their own filter), while two keys differing
only in the axis decode to the same triple and contribute two identical
clauses. -/
theorem drill_filter_dedup_per_key :
    (∀ (meta : Option CubeMetadata) (base : PivotConfig) (keys : List String),
        (buildDrillDownConfig meta base keys).filters
          = base.filters ++ drillFilters meta keys)
  ∧ (∀ (meta : Option CubeMetadata) (keys : List String),
        (keys.Pairwise fun k1 k2 => decodeTriple k1 ≠ decodeTriple k2) →
        (drillFilters meta keys).Nodup)
  ∧ (∀ (meta : Option CubeMetadata) (keys : List String) (key : String) (c : Filter),
        key ∈ keys → drillFilter meta key = some c → c ∈ drillFilters meta keys) :=
  ⟨fun meta base keys => buildDrillDownConfig_filters meta keys base,
   fun meta keys h => drillFilters_nodup meta keys h,
   fun meta keys key c hk hf => mem_drillFilters meta keys key c hk hf⟩

/-- C5 witness: two expansions of distinct values x and y on the same
(dimension, level) contribute two distinct filters (the filter list is
duplicate-free). -/
theorem drill_filter_dedup_per_key_witness :
    (drillFilters metaDL ["row:d:a:x", "row:d:a:y"]).Nodup :=
  drill_filter_dedup_per_key.2.1 metaDL ["row:d:a:x", "row:d:a:y"] (by decide)

/-- C9: addToRows, addToColumns and addMeasure are idempotent — adding a field
whose (dimension, level) pair is already on the axis (or a measure whose name
is already present) leaves the configuration unchanged — and starting from the
empty configuration, no sequence of add actions produces an axis with two
entries for the same (dimension, level) or two measures with the same name. -/
theorem add_ops_keep_axes_duplicate_free :
    (∀ (c : PivotConfig) (f : Field),
        (∃ g ∈ c.rows, g.dimension = f.dimension ∧ g.level = f.level) →
          addToRows c f = c)
  ∧ (∀ (c : PivotConfig) (f : Field), addToRows (addToRows c f) f = addToRows c f)
  ∧ (∀ (c : PivotConfig) (f : Field),
        (∃ g ∈ c.columns, g.dimension = f.dimension ∧ g.level = f.level) →
          addToColumns c f = c)
  ∧ (∀ (c : PivotConfig) (f : Field), addToColumns (addToColumns c f) f = addToColumns c f)
  ∧ (∀ (c : PivotConfig) (m : Measure),
        (∃ g ∈ c.measures, g.name = m.name) → addMeasure c m = c)
  ∧ (∀ (c : PivotConfig) (m : Measure), addMeasure (addMeasure c m) m = addMeasure c m)
  ∧ (∀ ops : List AddOp, configNoDup (applyAddOps emptyPivotConfig ops)) := by
  refine ⟨addToRows_of_found, ?_, addToColumns_of_found, ?_, addMeasure_of_found, ?_, ?_⟩
  · intro c f
    by_cases hf : (c.rows.find? fun g =>
        g.dimension == f.dimension && g.level == f.level).isSome
    · have h1 : addToRows c f = c := by unfold addToRows; rw [if_pos hf]
      rw [h1]
      exact h1
    · have h2 : addToRows c f = { c with rows := c.rows ++ [f] } := by
        unfold addToRows; rw [if_neg hf]
      rw [h2]
      exact addToRows_of_found _ f
        ⟨f, List.mem_append_right _ (List.mem_singleton_self f), rfl, rfl⟩
  · intro c f
    by_cases hf : (c.columns.find? fun g =>
        g.dimension == f.dimension && g.level == f.level).isSome
    · have h1 : addToColumns c f = c := by unfold addToColumns; rw [if_pos hf]
      rw [h1]
      exact h1
    · have h2 : addToColumns c f = { c with columns := c.columns ++ [f] } := by
        unfold addToColumns; rw [if_neg hf]
      rw [h2]
      exact addToColumns_of_found _ f
        ⟨f, List.mem_append_right _ (List.mem_singleton_self f), rfl, rfl⟩
  · intro c m
    by_cases hf : (c.measures.find? fun g => g.name == m.name).isSome
    · have h1 : addMeasure c m = c := by unfold addMeasure; rw [if_pos hf]
      rw [h1]
      exact h1
    · have h2 : addMeasure c m
          = { c with measures := c.measures ++ [{ name := m.name }] } := by
        unfold addMeasure; rw [if_neg hf]
      rw [h2]
      exact addMeasure_of_found _ m
        ⟨{ name := m.name }, List.mem_append_right _ (List.mem_singleton_self _), rfl⟩
  · intro ops
    refine applyAddOps_noDup ops emptyPivotConfig ?_
    exact ⟨List.Pairwise.nil, List.Pairwise.nil, List.Pairwise.nil⟩

/-- C9 witness: re-adding Date/Year to a rows axis already holding it leaves
the configuration unchanged. -/
theorem add_ops_keep_axes_duplicate_free_witness :
    addToRows { rows := [⟨"Date", "Year"⟩], columns := [], measures := [], filters := [] }
        ⟨"Date", "Year"⟩
      = { rows := [⟨"Date", "Year"⟩], columns := [], measures := [], filters := [] } :=
  add_ops_keep_axes_duplicate_free.1 _ _
    ⟨⟨"Date", "Year"⟩, List.mem_singleton_self _, rfl, rfl⟩

/-- C10: expansion keys are the single string axis:dimension:level:value and
are decoded by splitting on ':': when axis, dimension, level and value contain
no ':' the decode recovers exactly the encoded components, so the appended
drill filter carries exactly [value]; for a value containing ':' the decoded
value is the prefix before the first extra separator, not the original value. -/
theorem key_encoding_roundtrip :
    (∀ d l v : String, ':' ∉ d.data → ':' ∉ l.data → ':' ∉ v.data →
        jsSplitColon (rowKey d l v) = ["row", d, l, v]
      ∧ jsSplitColon (colKey d l v) = ["col", d, l, v]
      ∧ decodeTriple (rowKey d l v) = (d, l, v)
      ∧ decodeTriple (colKey d l v) = (d, l, v)
      ∧ ∀ (meta : Option CubeMetadata) (base : PivotConfig) (L' : Level),
          getNextLevel meta d l = some L' →
            (buildDrillDownConfig meta base [rowKey d l v]).filters
              = base.filters ++
                  [{ dimension := d, level := l, operator := "=", values := [v] }])
  ∧ (jsSplitColon (rowKey "Date" "Year" "20:24") = ["row", "Date", "Year", "20", "24"]
      ∧ decodeTriple (rowKey "Date" "Year" "20:24") = ("Date", "Year", "20")
      ∧ decodeTriple (rowKey "Date" "Year" "20:24") ≠ ("Date", "Year", "20:24")
      ∧ (buildDrillDownConfig dateMeta salesBase [rowKey "Date" "Year" "20:24"]).filters
          = [{ dimension := "Date", level := "Year", operator := "=",
               values := ["20"] }]) := by
  constructor
  · intro d l v hd hl hv
    refine ⟨?_, ?_, decodeTriple_rowKey d l v hd hl hv,
      decodeTriple_colKey d l v hd hl hv, ?_⟩
    · rw [jsSplitColon_rowKey d l v hd hl, jsSplitColon_noColon v hv]
    · rw [jsSplitColon_colKey d l v hd hl, jsSplitColon_noColon v hv]
    · intro meta base L' hnext
      rw [buildDrillDownConfig_filters]
      have h := drillFilter_rowKey meta d l v L' hd hl hv hnext
      simp [drillFilters, h]
  · exact ⟨by decide, by decide, by decide, by decide⟩

/-- C10 witness: a colon-free key decodes back to its components. -/
theorem key_encoding_roundtrip_witness :
    jsSplitColon (rowKey "Store" "City" "Seoul") = ["row", "Store", "City", "Seoul"] :=
  (key_encoding_roundtrip.1 "Store" "City" "Seoul" (by decide) (by decide) (by decide)).1

/-- C1 (spec-modelled): every SQL statement containing a mutating keyword as a
word token, under arbitrary letter case (the token is matched uppercased) and
arbitrary surrounding whitespace (padding does not change the token list), is
rejected by the validation gate and reaches the warehouse on neither the pivot
path nor the NL2SQL path; conversely any statement that does reach the
warehouse is passed through unchanged and is free of mutating keywords. -/
theorem mutating_sql_never_reaches_warehouse :
    (∀ sql : String, (∃ t ∈ sqlTokens sql, upperString t ∈ mutatingKeywords) →
        hasMutatingKeyword sql = true
      ∧ validateSQL sql = .error "UnsafeQueryError: mutating keyword"
      ∧ warehouseSQLOfNL2SQL sql = none
      ∧ warehouseSQLOfPivot sql = none)
  ∧ (∀ sql out : String,
        warehouseSQLOfNL2SQL sql = some out ∨ warehouseSQLOfPivot sql = some out →
        out = sql ∧ hasMutatingKeyword sql = false)
  ∧ (∀ ws1 ws2 stmt : String, (∀ c ∈ ws1.data, c.isWhitespace = true) →
        (∀ c ∈ ws2.data, c.isWhitespace = true) →
        hasMutatingKeyword (ws1 ++ stmt ++ ws2) = hasMutatingKeyword stmt) := by
  refine ⟨?_, ?_, ?_⟩
  · intro sql h
    have hm : hasMutatingKeyword sql = true := by
      obtain ⟨t, ht, hkw⟩ := h
      unfold hasMutatingKeyword
      rw [List.any_eq_true]
      exact ⟨t, ht, by simpa using hkw⟩
    refine ⟨hm, ?_, ?_, ?_⟩
    · unfold validateSQL; rw [if_pos hm]
    · unfold warehouseSQLOfNL2SQL warehouseGate validateSQL; rw [if_pos hm]; rfl
    · unfold warehouseSQLOfPivot warehouseGate validateSQL; rw [if_pos hm]; rfl
  · intro sql out hsome
    have hgate : warehouseGate sql = some out := by
      rcases hsome with h | h <;> exact h
    unfold warehouseGate validateSQL at hgate
    by_cases hm : hasMutatingKeyword sql = true
    · rw [if_pos hm] at hgate
      simp [Except.toOption] at hgate
    · rw [if_neg hm] at hgate
      simp only [Except.toOption] at hgate
      exact ⟨by simpa using hgate.symm, by simpa using hm⟩
  · intro ws1 ws2 stmt h1 h2
    unfold hasMutatingKeyword
    rw [sqlTokens_pad ws1 ws2 stmt h1 h2]

/-- C1 witness: a mixed-case, whitespace-wrapped DROP statement and a plain
UPDATE statement are both stopped by the gate on their respective paths. -/
theorem mutating_sql_never_reaches_warehouse_witness :
    warehouseSQLOfNL2SQL " \n  dRoP TABLE fact_sales " = none
  ∧ warehouseSQLOfPivot "UPDATE x" = none :=
  ⟨((mutating_sql_never_reaches_warehouse.1 " \n  dRoP TABLE fact_sales "
      ⟨"dRoP", by decide, by decide⟩).2.2).1,
   ((mutating_sql_never_reaches_warehouse.1 "UPDATE x"
      ⟨"UPDATE", by decide, by decide⟩).2.2).2⟩

end Olap
